import Mathlib

/-!
Verification of `src/core/src/data/iterator.rs` (dicom-rs streaming core):
the eager and lazy element-stream automata (`DicomElementIterator::next`,
`LazyDicomElementIterator::next`), the element marker
(`DicomElementMarker`) and its value-window binding (`get_data_stream`).

The automata are embedded as explicit state-passing functions over an
`IterState` (the mutable fields `depth`, `in_sequence`, `hard_break` of the
Rust iterator structs) and a `Source` (the byte source, tokenized at codec
granularity).  The header/value codec (`data::parser`, not part of this
module) is modelled from its specification: `decode_header` reads exactly
one element header, `decode_item_header` exactly one item/delimiter
boundary, `read_value` advances past one declared value.
-/

namespace DicomCore

deriving instance DecidableEq for Except

/-- The attribute tag: a pair of unsigned 16-bit group/element numbers
(`data::Tag`, modelled from the spec §3). -/
structure Tag where
  group : Nat
  element : Nat
deriving DecidableEq

/-- Modelled from the spec: `data::VR` (not under `src/`) is an enumerated
value-representation code.  Only `SQ` (sequence container) is special to the
automaton; `UN` is the "not applicable" placeholder used for structural
markers; a few scalar codes are included for concrete scenarios. -/
inductive VR where
  | SQ
  | UN
  | CS
  | PN
  | OB
  | LO
deriving DecidableEq

/-- The u32 sentinel denoting an undefined (delimited) element length. -/
def undefinedLen : Nat := 0xFFFFFFFF

/-- Modelled from the spec: `data::DataElementHeader` (not under `src/`) is
{tag, VR, declared length}; the length is a u32 whose all-ones value denotes
"undefined". -/
structure DataElementHeader where
  tag : Tag
  vr : VR
  len : Nat
deriving DecidableEq

/-- Modelled from the spec: `data::SequenceItemHeader` (not under `src/`) is
one of the three structural boundary markers: `Item` (carries a length),
`ItemDelimiter`, `SequenceDelimiter`. -/
inductive SequenceItemHeader where
  | item (len : Nat)
  | itemDelimiter
  | sequenceDelimiter
deriving DecidableEq

/-- Modelled from the spec: the `From<SequenceItemHeader>` conversion used by
`header.into()` (not under `src/`): a structural marker becomes an element
header with the standard boundary tag, the `UN` placeholder VR (spec §3), and
the boundary's length (zero for delimiters). -/
def SequenceItemHeader.toHeader : SequenceItemHeader → DataElementHeader
  | .item l => ⟨⟨0xFFFE, 0xE000⟩, .UN, l⟩
  | .itemDelimiter => ⟨⟨0xFFFE, 0xE00D⟩, .UN, 0⟩
  | .sequenceDelimiter => ⟨⟨0xFFFE, 0xE0DD⟩, .UN, 0⟩

/-- Modelled from the spec: `data::value::DicomValue` (not under `src/`) is
either a materialized payload or the explicit `Empty` marker used for the
structural pseudo-elements emitted by the eager walker (spec §3). -/
inductive DicomValue where
  | Empty
  | Bytes (bytes : List Nat)
deriving DecidableEq

/-- A decoded element: {header, value} (`data::DataElement`). -/
structure DataElement where
  header : DataElementHeader
  value : DicomValue
deriving DecidableEq

/-- `DicomElementMarker` (src/core/src/data/iterator.rs): the header kept in
memory plus the starting position of the element's data value. -/
structure DicomElementMarker where
  header : DataElementHeader
  pos : Nat
deriving DecidableEq

/-- The error type (`error::Error`, not under `src/`): per spec §7 the two
failure kinds relevant here are a codec decode error and a source
seek/position error. -/
inductive Error where
  | decode
  | seek
deriving DecidableEq

/-- Modelled from the spec: one codec-granularity token of the byte source.
Each element header, each item/delimiter boundary header, and each single
byte of a value payload occupies one chunk, so that header decoding, boundary
decoding and value reading advance the source exactly as the codec does. -/
inductive Chunk where
  | header (h : DataElementHeader)
  | itemHeader (h : SequenceItemHeader)
  | valueByte (b : Nat)
deriving DecidableEq

/-- Modelled from the spec: the byte source (Stream Cursor, §2) as seen by
the automaton: the remaining chunks, the current absolute position (one unit
per consumed chunk), and a flag modelling an underlying I/O failure of the
source's seek/position-query capability (spec §7, seek/position error). -/
structure Source where
  chunks : List Chunk
  pos : Nat
  posErr : Bool
deriving DecidableEq

/-- Modelled from the spec §6: `decode_header(source) -> ElementHeader` —
advances the source past one element header; a decode error is reported when
the source is exhausted or not positioned at an element header (spec §7:
"the codec could not interpret a header ... at the current position"). -/
def decode_header (s : Source) : Except Error (DataElementHeader × Source) :=
  match s.chunks with
  | Chunk.header h :: rest => .ok (h, ⟨rest, s.pos + 1, s.posErr⟩)
  | _ => .error .decode

/-- Modelled from the spec §6: `decode_item_boundary` (called
`decode_item_header` at the call sites) — advances the source past one
item/delimiter boundary header, failing on anything else. -/
def decode_item_header (s : Source) : Except Error (SequenceItemHeader × Source) :=
  match s.chunks with
  | Chunk.itemHeader h :: rest => .ok (h, ⟨rest, s.pos + 1, s.posErr⟩)
  | _ => .error .decode

/-- Consume exactly `n` value bytes from the source, failing on exhaustion or
on a non-value chunk. -/
def takeValueBytes : Nat → Source → Except Error (List Nat × Source)
  | 0, s => .ok ([], s)
  | n + 1, s =>
    match s.chunks with
    | Chunk.valueByte b :: rest =>
      match takeValueBytes n ⟨rest, s.pos + 1, s.posErr⟩ with
      | .ok (bs, s') => .ok (b :: bs, s')
      | .error e => .error e
    | _ => .error .decode

/-- Modelled from the spec §6: `read_value(source, header) -> Value` —
advances the source past and decodes one element's value.  An undefined
declared length has no scalar payload bytes to consume here (the nested
structure is walked by the automaton's boundary handling, spec §4.1), so it
consumes nothing. -/
def read_value (s : Source) (h : DataElementHeader) : Except Error (DicomValue × Source) :=
  let n := if h.len = undefinedLen then 0 else h.len
  match takeValueBytes n s with
  | .ok (bs, s') => .ok (.Bytes bs, s')
  | .error e => .error e

/-- The mutable automaton state shared by both iterator structs:
fields `depth`, `in_sequence`, `hard_break` of `DicomElementIterator` and
`LazyDicomElementIterator`.  `depth` is a Rust u32, embedded as `Nat`; the
`depth -= 1` in the `SequenceDelimiter` arm is truncated subtraction here
(the reachability invariant shows the operand is always positive). -/
structure IterState where
  depth : Nat
  in_sequence : Bool
  hard_break : Bool
deriving DecidableEq

/-- The state both constructors (`new`/`new_with`) install:
`depth: 0, in_sequence: false, hard_break: false`. -/
def initState : IterState := ⟨0, false, false⟩

/-- `DicomElementIterator::read_element`: read the value for the given
header and pair them up.  On failure the Rust source may be partially
advanced; the embedding leaves it at the pre-read position (no claim depends
on the source's position after a failed value read, since decoding state is
unchanged either way). -/
def DicomElementIterator.read_element (s : Source) (h : DataElementHeader) :
    Except Error DataElement × Source :=
  match read_value s h with
  | .ok (v, s') => (.ok ⟨h, v⟩, s')
  | .error e => (.error e, s)

/-- `DicomElementIterator::create_item_marker`: a structural boundary becomes
an element with the converted header and an `Empty` value; always `Ok`. -/
def DicomElementIterator.create_item_marker (h : SequenceItemHeader) :
    Except Error DataElement :=
  .ok ⟨h.toHeader, .Empty⟩

/-- `<DicomElementIterator as Iterator>::next` (src/core/src/data/iterator.rs
lines 95–146), as explicit state passing: returns the produced outcome
(`None` / `Some(Ok _)` / `Some(Err _)`), the updated iterator state, and the
updated source. -/
def DicomElementIterator.next (st : IterState) (src : Source) :
    Option (Except Error DataElement) × IterState × Source :=
  if st.hard_break then
    (none, st, src)
  else if st.in_sequence then
    match decode_item_header src with
    | .ok (h, src') =>
      match h with
      | .item l =>
        (some (DicomElementIterator.create_item_marker (.item l)),
          { st with in_sequence := false }, src')
      | .itemDelimiter =>
        (some (DicomElementIterator.create_item_marker .itemDelimiter),
          { st with in_sequence := true }, src')
      | .sequenceDelimiter =>
        (some (DicomElementIterator.create_item_marker .sequenceDelimiter),
          { st with depth := st.depth - 1, in_sequence := false }, src')
    | .error e =>
      (some (.error e), { st with hard_break := true }, src)
  else
    match decode_header src with
    | .ok (h, src') =>
      if h.tag = ⟨0x0008, 0x0005⟩ then
        let r := DicomElementIterator.read_element src' h
        (some r.1, st, r.2)
      else
        let st' :=
          if h.vr = VR.SQ then { st with in_sequence := true, depth := st.depth + 1 }
          else st
        let r := DicomElementIterator.read_element src' h
        (some r.1, st', r.2)
    | .error e =>
      (some (.error e), { st with hard_break := true }, src)

/-- `LazyDicomElementIterator::get_position`: the source's current position
via `seek(SeekFrom::Current(0))`; fails when the source's seek capability is
failing. -/
def get_position (src : Source) : Except Error Nat :=
  if src.posErr then .error .seek else .ok src.pos

/-- `LazyDicomElementIterator::create_element_marker` (lines 206–217): query
the position; on success build the marker, on failure set `hard_break` and
surface the error.  The state passed in is the one already holding any
updates the calling arm performed. -/
def LazyDicomElementIterator.create_element_marker (st : IterState) (src : Source)
    (h : DataElementHeader) : Except Error DicomElementMarker × IterState :=
  match get_position src with
  | .ok p => (.ok ⟨h, p⟩, st)
  | .error e => (.error e, { st with hard_break := true })

/-- `LazyDicomElementIterator::create_item_marker` (lines 219–230). -/
def LazyDicomElementIterator.create_item_marker (st : IterState) (src : Source)
    (h : SequenceItemHeader) : Except Error DicomElementMarker × IterState :=
  match get_position src with
  | .ok p => (.ok ⟨h.toHeader, p⟩, st)
  | .error e => (.error e, { st with hard_break := true })

/-- `<LazyDicomElementIterator as Iterator>::next` (lines 240–291). -/
def LazyDicomElementIterator.next (st : IterState) (src : Source) :
    Option (Except Error DicomElementMarker) × IterState × Source :=
  if st.hard_break then
    (none, st, src)
  else if st.in_sequence then
    match decode_item_header src with
    | .ok (h, src') =>
      match h with
      | .item l =>
        let r := LazyDicomElementIterator.create_item_marker
          { st with in_sequence := false } src' (.item l)
        (some r.1, r.2, src')
      | .itemDelimiter =>
        let r := LazyDicomElementIterator.create_item_marker
          { st with in_sequence := true } src' .itemDelimiter
        (some r.1, r.2, src')
      | .sequenceDelimiter =>
        let r := LazyDicomElementIterator.create_item_marker
          { st with depth := st.depth - 1, in_sequence := false } src' .sequenceDelimiter
        (some r.1, r.2, src')
    | .error e =>
      (some (.error e), { st with hard_break := true }, src)
  else
    match decode_header src with
    | .ok (h, src') =>
      if h.tag = ⟨0x0008, 0x0005⟩ then
        let r := LazyDicomElementIterator.create_element_marker st src' h
        (some r.1, r.2, src')
      else
        let st' :=
          if h.vr = VR.SQ then { st with in_sequence := true, depth := st.depth + 1 }
          else st
        let r := LazyDicomElementIterator.create_element_marker st' src' h
        (some r.1, r.2, src')
    | .error e =>
      (some (.error e), { st with hard_break := true }, src)

/-- Drive the eager automaton for `n` steps, collecting the outcomes. -/
def DicomElementIterator.run :
    Nat → IterState → Source → List (Option (Except Error DataElement)) × IterState × Source
  | 0, st, src => ([], st, src)
  | n + 1, st, src =>
    let r := DicomElementIterator.next st src
    let rest := DicomElementIterator.run n r.2.1 r.2.2
    (r.1 :: rest.1, rest.2)

/-- Drive the lazy automaton for `n` steps, collecting the outcomes. -/
def LazyDicomElementIterator.run :
    Nat → IterState → Source → List (Option (Except Error DicomElementMarker)) × IterState × Source
  | 0, st, src => ([], st, src)
  | n + 1, st, src =>
    let r := LazyDicomElementIterator.next st src
    let rest := LazyDicomElementIterator.run n r.2.1 r.2.2
    (r.1 :: rest.1, rest.2)

/-- The header of an eager outcome, discarding the materialized payload:
used to compare the eager and the lazy automaton element-for-element. -/
def eagerShape : Option (Except Error DataElement) → Option (Except Error DataElementHeader)
  | none => none
  | some (.error e) => some (.error e)
  | some (.ok d) => some (.ok d.header)

/-- The header of a lazy outcome, discarding the recorded offset. -/
def lazyShape : Option (Except Error DicomElementMarker) → Option (Except Error DataElementHeader)
  | none => none
  | some (.error e) => some (.error e)
  | some (.ok m) => some (.ok m.header)

/-- Decidable test that every element header among the chunks declares a
payload of zero bytes (a zero or undefined length). -/
def zeroLenChunks (cs : List Chunk) : Bool :=
  cs.all fun c =>
    match c with
    | .header h => h.len == undefinedLen || h.len == 0
    | _ => true

/-! ### Byte-level model for the element marker's value window

`DicomElementMarker::get_data_stream` hands a `Range<u64>` to
`SeekInterval::new_at` over the raw seekable source, so this part is
modelled at byte granularity, independent of the automaton's
codec-granularity source. -/

/-- Modelled from the spec: the raw seekable byte source (Stream Cursor, §2)
underneath a marker: its bytes, its current position, and a flag modelling an
underlying I/O failure of its seek capability. -/
structure ByteSource where
  data : List Nat
  pos : Nat
  seekErr : Bool
deriving DecidableEq

/-- Absolute seek (`SeekFrom::Start`), failing when the source's seek
capability is failing. -/
def ByteSource.seekTo (s : ByteSource) (p : Nat) : Except Error ByteSource :=
  if s.seekErr then .error .seek else .ok { s with pos := p }

/-- The Rust half-open range `start..end`: the field `end` (a Lean keyword)
is named `stop`.  `a..b` denotes the positions `[a, b)`. -/
structure RustRange where
  start : Nat
  stop : Nat
deriving DecidableEq

/-- Modelled from the spec: `SeekInterval` (`util.rs`, not under `src/`) is
the Bounded Sub-Stream of §4.3, "a read/seek-constrained window over a larger
seekable source"; reads are confined to `[first, stop)` in the source's
absolute coordinates and "reads past the window's end must not succeed". -/
structure SeekInterval where
  source : ByteSource
  first : Nat
  current : Nat
  stop : Nat
deriving DecidableEq

/-- Modelled from the spec: `SeekInterval::new_at` (`util.rs`, not under
`src/`) receives the window as a Rust half-open `Range<u64>` of absolute
positions `[range.start, range.end)`, seeks the source to the window's start
(spec §4.2: the binding "fails if the underlying seek fails"), and restricts
subsequent reads to the window. -/
def SeekInterval.new_at (source : ByteSource) (range : RustRange) :
    Except Error SeekInterval :=
  match source.seekTo range.start with
  | .error e => .error e
  | .ok s' => .ok ⟨s', range.start, range.start, range.stop⟩

/-- Read the whole remaining window sequentially: the bytes of the source
from the current position up to (never past) the window's end. -/
def SeekInterval.readAll (iv : SeekInterval) : List Nat :=
  (iv.source.data.drop iv.current).take (iv.stop - iv.current)

/-- Read one byte, failing at (never moving past) the window's end. -/
def SeekInterval.readOne (iv : SeekInterval) : Except Error (Nat × SeekInterval) :=
  if iv.current < iv.stop then
    match (iv.source.data.drop iv.current).head? with
    | some b => .ok (b, { iv with current := iv.current + 1 })
    | none => .error .decode
  else
    .error .decode

/-- `DicomElementMarker::get_data_stream` (src/core/src/data/iterator.rs
lines 310–320): `let len = self.header.len() as u64;
SeekInterval::new_at(source, self.pos..len)` — the `Range` handed over is
literally `pos..len`. -/
def DicomElementMarker.get_data_stream (m : DicomElementMarker) (source : ByteSource) :
    Except Error SeekInterval :=
  let len := m.header.len
  SeekInterval.new_at source ⟨m.pos, len⟩

/-- `DicomElementMarker::move_to_start` (lines 323–329): seek the source to
the marker's recorded offset. -/
def DicomElementMarker.move_to_start (m : DicomElementMarker) (source : ByteSource) :
    Except Error ByteSource :=
  source.seekTo m.pos

/-- The states of the eager automaton reachable from the constructor state
by `next` steps over arbitrary sources. -/
inductive EagerReachable : IterState → Prop
  | init : EagerReachable initState
  | step (st : IterState) (src : Source) : EagerReachable st →
      EagerReachable (DicomElementIterator.next st src).2.1

/-- The states of the lazy automaton reachable from the constructor state
by `next` steps over arbitrary sources. -/
inductive LazyReachable : IterState → Prop
  | init : LazyReachable initState
  | step (st : IterState) (src : Source) : LazyReachable st →
      LazyReachable (LazyDicomElementIterator.next st src).2.1

/-- The §8 sequence scenario: an element header with VR `SQ` and undefined
length, an `Item` boundary with undefined length, one flat (zero-length)
element, an `ItemDelimiter`, and a `SequenceDelimiter`. -/
def seqScenarioChunks : List Chunk :=
  [ .header ⟨⟨0x0040, 0x0100⟩, .SQ, undefinedLen⟩,
    .itemHeader (.item undefinedLen),
    .header ⟨⟨0x0010, 0x0010⟩, .LO, 0⟩,
    .itemHeader .itemDelimiter,
    .itemHeader .sequenceDelimiter ]

/-- The sequence scenario as an untouched, position-reporting source. -/
def seqScenarioSrc : Source := ⟨seqScenarioChunks, 0, false⟩

/-- A well-formed two-element flat stream whose first element carries a
two-byte value: the character-set scenario of §8. -/
def flatScenarioSrc : Source :=
  ⟨[ .header ⟨⟨0x0008, 0x0005⟩, .CS, 2⟩, .valueByte 67, .valueByte 83,
     .header ⟨⟨0x0010, 0x0010⟩, .PN, 0⟩ ], 0, false⟩

/-! ## Theorems -/

theorem eager_run_break (n d : Nat) (sq : Bool) (src : Source) :
    DicomElementIterator.run n ⟨d, sq, true⟩ src =
      (List.replicate n none, ⟨d, sq, true⟩, src) := by
  induction n with
  | zero => rfl
  | succ k ih =>
    simp [DicomElementIterator.run, DicomElementIterator.next, ih, List.replicate_succ]

theorem lazy_run_break (n d : Nat) (sq : Bool) (src : Source) :
    LazyDicomElementIterator.run n ⟨d, sq, true⟩ src =
      (List.replicate n none, ⟨d, sq, true⟩, src) := by
  induction n with
  | zero => rfl
  | succ k ih =>
    simp [LazyDicomElementIterator.run, LazyDicomElementIterator.next, ih, List.replicate_succ]

/-- C1: once a step has set the terminal-error flag (`hard_break`), every
subsequent `next` call of either automaton returns end-of-stream (`none`),
decodes nothing further (the source is untouched), and leaves the state
unchanged — so the error that set the flag is surfaced exactly once. -/
theorem c1_failure_idempotent (n d : Nat) (sq : Bool) (src : Source) :
    DicomElementIterator.run n ⟨d, sq, true⟩ src =
      (List.replicate n none, ⟨d, sq, true⟩, src) ∧
    LazyDicomElementIterator.run n ⟨d, sq, true⟩ src =
      (List.replicate n none, ⟨d, sq, true⟩, src) :=
  ⟨eager_run_break n d sq src, lazy_run_break n d sq src⟩

theorem eager_next_ne_none (st : IterState) (src : Source)
    (h : st.hard_break = false) : (DicomElementIterator.next st src).1 ≠ none := by
  obtain ⟨cs, pos, pe⟩ := src
  cases hseq : st.in_sequence
  · cases cs with
    | nil => simp [DicomElementIterator.next, decode_header, h, hseq]
    | cons c rest =>
      cases c with
      | header hh =>
        by_cases htag : hh.tag = ⟨0x0008, 0x0005⟩ <;>
          simp [DicomElementIterator.next, decode_header, h, hseq, htag]
      | itemHeader b => simp [DicomElementIterator.next, decode_header, h, hseq]
      | valueByte bb => simp [DicomElementIterator.next, decode_header, h, hseq]
  · cases cs with
    | nil => simp [DicomElementIterator.next, decode_item_header, h, hseq]
    | cons c rest =>
      cases c with
      | header hh => simp [DicomElementIterator.next, decode_item_header, h, hseq]
      | itemHeader b =>
        cases b <;> simp [DicomElementIterator.next, decode_item_header, h, hseq]
      | valueByte bb => simp [DicomElementIterator.next, decode_item_header, h, hseq]

theorem lazy_next_ne_none (st : IterState) (src : Source)
    (h : st.hard_break = false) : (LazyDicomElementIterator.next st src).1 ≠ none := by
  obtain ⟨cs, pos, pe⟩ := src
  cases hseq : st.in_sequence
  · cases cs with
    | nil => simp [LazyDicomElementIterator.next, decode_header, h, hseq]
    | cons c rest =>
      cases c with
      | header hh =>
        by_cases htag : hh.tag = ⟨0x0008, 0x0005⟩ <;> cases pe <;>
          simp [LazyDicomElementIterator.next, decode_header, h, hseq, htag,
            LazyDicomElementIterator.create_element_marker, get_position]
      | itemHeader b => simp [LazyDicomElementIterator.next, decode_header, h, hseq]
      | valueByte bb => simp [LazyDicomElementIterator.next, decode_header, h, hseq]
  · cases cs with
    | nil => simp [LazyDicomElementIterator.next, decode_item_header, h, hseq]
    | cons c rest =>
      cases c with
      | header hh => simp [LazyDicomElementIterator.next, decode_item_header, h, hseq]
      | itemHeader b =>
        cases b <;> cases pe <;>
          simp [LazyDicomElementIterator.next, decode_item_header, h, hseq,
            LazyDicomElementIterator.create_item_marker, get_position]
      | valueByte bb => simp [LazyDicomElementIterator.next, decode_item_header, h, hseq]

theorem option_except_cases {α : Type} (o : Option (Except Error α)) :
    o = none ∨ (∃ a, o = some (.ok a)) ∨ (∃ e, o = some (.error e)) := by
  rcases o with _ | r
  · exact Or.inl rfl
  · rcases r with e | a
    · exact Or.inr (Or.inr ⟨e, rfl⟩)
    · exact Or.inr (Or.inl ⟨a, rfl⟩)

/-- C2 (counterexample): on a well-formed stream that is simply exhausted —
here the already-empty stream — the first `next` call of either automaton
produces a decode-error item, not end-of-stream: the automata have no way to
signal exhaustion other than a failed decode followed by `hard_break`. -/
theorem c2_counterexample :
    (DicomElementIterator.next initState ⟨[], 0, false⟩).1 = some (.error .decode) ∧
    (LazyDicomElementIterator.next initState ⟨[], 0, false⟩).1 = some (.error .decode) := by
  exact ⟨rfl, rfl⟩

/-- C2 (amended): every `next` call returns exactly one of the three
distinguishable outcomes — a decoded item, an error, or end-of-stream — and
end-of-stream is returned precisely when the terminal-error flag is already
set; a stream that is simply exhausted is therefore reported as a decode
error on the step that hits the end (which sets the flag), with end-of-stream
only on the calls after that. -/
theorem c2_amended (st : IterState) (src : Source) :
    ((DicomElementIterator.next st src).1 = none ↔ st.hard_break = true) ∧
    ((LazyDicomElementIterator.next st src).1 = none ↔ st.hard_break = true) ∧
    ((DicomElementIterator.next st src).1 = none ∨
      (∃ d, (DicomElementIterator.next st src).1 = some (.ok d)) ∨
      (∃ e, (DicomElementIterator.next st src).1 = some (.error e))) ∧
    ((LazyDicomElementIterator.next st src).1 = none ∨
      (∃ m, (LazyDicomElementIterator.next st src).1 = some (.ok m)) ∨
      (∃ e, (LazyDicomElementIterator.next st src).1 = some (.error e))) := by
  refine ⟨?_, ?_, option_except_cases _, option_except_cases _⟩
  · cases hhb : st.hard_break
    · simp [eager_next_ne_none st src hhb]
    · simp [DicomElementIterator.next, hhb]
  · cases hhb : st.hard_break
    · simp [lazy_next_ne_none st src hhb]
    · simp [LazyDicomElementIterator.next, hhb]

/-- C3 (code bug, evaluated): `get_data_stream` hands `SeekInterval::new_at`
the range `self.pos..len` — the absolute window `[pos, len)` — instead of
`self.pos..self.pos + len`.  For a marker at offset 10 with declared length 4
over a 20-byte source, the bound window is `[10, 4)`: empty, so a full
sequential read returns no bytes and a single read fails, although the
element's value bytes `[10, 14)` are present in the source; only markers at
offset 0 get a correct window.  The seek-failure half of the claim does hold:
binding fails when the underlying seek fails. -/
theorem c3_code_bug_eval :
    DicomElementMarker.get_data_stream ⟨⟨⟨0x0010, 0x0010⟩, .OB, 4⟩, 10⟩
        ⟨List.range 20, 0, false⟩ =
      .ok ⟨⟨List.range 20, 10, false⟩, 10, 10, 4⟩ ∧
    SeekInterval.readAll ⟨⟨List.range 20, 10, false⟩, 10, 10, 4⟩ = [] ∧
    SeekInterval.readOne ⟨⟨List.range 20, 10, false⟩, 10, 10, 4⟩ = .error .decode ∧
    ((List.range 20).drop 10).take 4 = [10, 11, 12, 13] ∧
    DicomElementMarker.get_data_stream ⟨⟨⟨0x0010, 0x0010⟩, .OB, 4⟩, 10⟩
        ⟨List.range 20, 0, true⟩ = .error .seek := by
  refine ⟨by decide, by decide, by decide, by decide, by decide⟩

/-- C5: with the "awaiting item boundary" flag set (and no terminal error),
a step of either automaton decodes an item boundary and transitions exactly
as claimed: on `Item` the flag is cleared, on `ItemDelimiter` it stays set,
on `SequenceDelimiter` the depth is decremented and the flag is cleared; in
all three cases a structural marker item is produced — empty-valued in eager
mode, a position marker in lazy mode — and the depth is unchanged except in
the `SequenceDelimiter` case. -/
theorem c5_boundary_transitions (d pos l : Nat) (rest : List Chunk) :
    DicomElementIterator.next ⟨d, true, false⟩ ⟨.itemHeader (.item l) :: rest, pos, false⟩ =
      (some (.ok ⟨(SequenceItemHeader.item l).toHeader, .Empty⟩),
        ⟨d, false, false⟩, ⟨rest, pos + 1, false⟩) ∧
    LazyDicomElementIterator.next ⟨d, true, false⟩ ⟨.itemHeader (.item l) :: rest, pos, false⟩ =
      (some (.ok ⟨(SequenceItemHeader.item l).toHeader, pos + 1⟩),
        ⟨d, false, false⟩, ⟨rest, pos + 1, false⟩) ∧
    DicomElementIterator.next ⟨d, true, false⟩ ⟨.itemHeader .itemDelimiter :: rest, pos, false⟩ =
      (some (.ok ⟨SequenceItemHeader.itemDelimiter.toHeader, .Empty⟩),
        ⟨d, true, false⟩, ⟨rest, pos + 1, false⟩) ∧
    LazyDicomElementIterator.next ⟨d, true, false⟩ ⟨.itemHeader .itemDelimiter :: rest, pos, false⟩ =
      (some (.ok ⟨SequenceItemHeader.itemDelimiter.toHeader, pos + 1⟩),
        ⟨d, true, false⟩, ⟨rest, pos + 1, false⟩) ∧
    DicomElementIterator.next ⟨d, true, false⟩
        ⟨.itemHeader .sequenceDelimiter :: rest, pos, false⟩ =
      (some (.ok ⟨SequenceItemHeader.sequenceDelimiter.toHeader, .Empty⟩),
        ⟨d - 1, false, false⟩, ⟨rest, pos + 1, false⟩) ∧
    LazyDicomElementIterator.next ⟨d, true, false⟩
        ⟨.itemHeader .sequenceDelimiter :: rest, pos, false⟩ =
      (some (.ok ⟨SequenceItemHeader.sequenceDelimiter.toHeader, pos + 1⟩),
        ⟨d - 1, false, false⟩, ⟨rest, pos + 1, false⟩) :=
  ⟨rfl, rfl, rfl, rfl, rfl, rfl⟩

/-- C4 (counterexample): on the §8 sequence scenario the automaton does not
yield five items with the depth returning to 0.  The `Item` boundary clears
the "awaiting item boundary" flag and nothing re-sets it after the item's
contents, so the trailing `ItemDelimiter` is offered to the element-header
decoder: step 4 is a decode error (not an `ItemDelimiter` structural item),
step 5 is end-of-stream (not a `SequenceDelimiter` item), and the depth never
returns to 0 — it is still 1 when iteration dies, in both automata. -/
theorem c4_counterexample :
    (DicomElementIterator.run 5 initState seqScenarioSrc).1.drop 3 =
      [some (.error .decode), none] ∧
    (DicomElementIterator.run 5 initState seqScenarioSrc).2.1.depth = 1 ∧
    (LazyDicomElementIterator.run 5 initState seqScenarioSrc).1.drop 3 =
      [some (.error .decode), none] ∧
    (LazyDicomElementIterator.run 5 initState seqScenarioSrc).2.1.depth = 1 := by
  refine ⟨by decide, by decide, by decide, by decide⟩

/-- C4 (amended): on the §8 sequence scenario, stepping either automaton
yields the SQ element (depth 0→1), the `Item` boundary marker, and the flat
element (depth stays 1); the `ItemDelimiter` is then fed to the
element-header decoder — the flag was cleared by `Item` and is never re-set
after the item's contents — so the fourth step surfaces a decode error that
sets the terminal-error flag, the fifth step reports end-of-stream, the
`SequenceDelimiter` is never consumed, and the depth remains 1. -/
theorem c4_amended :
    DicomElementIterator.run 5 initState seqScenarioSrc =
      ([ some (.ok ⟨⟨⟨0x0040, 0x0100⟩, .SQ, undefinedLen⟩, .Bytes []⟩),
         some (.ok ⟨⟨⟨0xFFFE, 0xE000⟩, .UN, undefinedLen⟩, .Empty⟩),
         some (.ok ⟨⟨⟨0x0010, 0x0010⟩, .LO, 0⟩, .Bytes []⟩),
         some (.error .decode),
         none ],
        ⟨1, false, true⟩,
        ⟨[.itemHeader .itemDelimiter, .itemHeader .sequenceDelimiter], 3, false⟩) ∧
    LazyDicomElementIterator.run 5 initState seqScenarioSrc =
      ([ some (.ok ⟨⟨⟨0x0040, 0x0100⟩, .SQ, undefinedLen⟩, 1⟩),
         some (.ok ⟨⟨⟨0xFFFE, 0xE000⟩, .UN, undefinedLen⟩, 2⟩),
         some (.ok ⟨⟨⟨0x0010, 0x0010⟩, .LO, 0⟩, 3⟩),
         some (.error .decode),
         none ],
        ⟨1, false, true⟩,
        ⟨[.itemHeader .itemDelimiter, .itemHeader .sequenceDelimiter], 3, false⟩) := by
  refine ⟨by decide, by decide⟩

/-- C6: decoding a regular (non-character-set) element header whose VR is
`SQ` sets the "awaiting item boundary" flag, increments the nesting depth by
one, and still produces an item for the sequence element itself (the eager
item is `read_element`'s result, the lazy item a position marker); for any
other non-special header the flag and depth are unchanged and a plain item is
produced. -/
theorem c6_sq_header (d pos : Nat) (h : DataElementHeader) (rest : List Chunk)
    (htag : h.tag ≠ ⟨0x0008, 0x0005⟩) :
    (h.vr = VR.SQ →
      DicomElementIterator.next ⟨d, false, false⟩ ⟨.header h :: rest, pos, false⟩ =
        (some (DicomElementIterator.read_element ⟨rest, pos + 1, false⟩ h).1,
          ⟨d + 1, true, false⟩,
          (DicomElementIterator.read_element ⟨rest, pos + 1, false⟩ h).2) ∧
      LazyDicomElementIterator.next ⟨d, false, false⟩ ⟨.header h :: rest, pos, false⟩ =
        (some (.ok ⟨h, pos + 1⟩), ⟨d + 1, true, false⟩, ⟨rest, pos + 1, false⟩)) ∧
    (h.vr ≠ VR.SQ →
      DicomElementIterator.next ⟨d, false, false⟩ ⟨.header h :: rest, pos, false⟩ =
        (some (DicomElementIterator.read_element ⟨rest, pos + 1, false⟩ h).1,
          ⟨d, false, false⟩,
          (DicomElementIterator.read_element ⟨rest, pos + 1, false⟩ h).2) ∧
      LazyDicomElementIterator.next ⟨d, false, false⟩ ⟨.header h :: rest, pos, false⟩ =
        (some (.ok ⟨h, pos + 1⟩), ⟨d, false, false⟩, ⟨rest, pos + 1, false⟩)) := by
  refine ⟨fun hvr => ⟨?_, ?_⟩, fun hvr => ⟨?_, ?_⟩⟩ <;>
    simp [DicomElementIterator.next, LazyDicomElementIterator.next, decode_header,
      LazyDicomElementIterator.create_element_marker, get_position, htag, hvr]

theorem c6_sq_header_witness :
    ((⟨⟨0x0040, 0x0100⟩, .SQ, undefinedLen⟩ : DataElementHeader).tag ≠
      (⟨0x0008, 0x0005⟩ : Tag)) ∧
    DicomElementIterator.next ⟨0, false, false⟩
        ⟨[.header ⟨⟨0x0040, 0x0100⟩, .SQ, undefinedLen⟩], 0, false⟩ =
      (some (.ok ⟨⟨⟨0x0040, 0x0100⟩, .SQ, undefinedLen⟩, .Bytes []⟩),
        ⟨1, true, false⟩, ⟨[], 1, false⟩) :=
  ⟨by decide,
    ((c6_sq_header 0 0 ⟨⟨0x0040, 0x0100⟩, .SQ, undefinedLen⟩ [] (by decide)).1 rfl).1⟩

/-- C8: in the lazy automaton, when the positioned source's position query
fails while creating a marker — after a successfully decoded element header
or a successfully decoded boundary — the step surfaces the seek error as its
result and sets the terminal-error flag exactly as a decode failure does, and
every subsequent step reports end-of-stream. -/
theorem c8_position_failure (d pos n : Nat) (h : DataElementHeader)
    (b : SequenceItemHeader) (rest : List Chunk) :
    ((LazyDicomElementIterator.next ⟨d, false, false⟩
        ⟨.header h :: rest, pos, true⟩).1 = some (.error .seek) ∧
      (LazyDicomElementIterator.next ⟨d, false, false⟩
        ⟨.header h :: rest, pos, true⟩).2.1.hard_break = true ∧
      (LazyDicomElementIterator.run n
          (LazyDicomElementIterator.next ⟨d, false, false⟩
            ⟨.header h :: rest, pos, true⟩).2.1
          (LazyDicomElementIterator.next ⟨d, false, false⟩
            ⟨.header h :: rest, pos, true⟩).2.2).1 = List.replicate n none) ∧
    ((LazyDicomElementIterator.next ⟨d, true, false⟩
        ⟨.itemHeader b :: rest, pos, true⟩).1 = some (.error .seek) ∧
      (LazyDicomElementIterator.next ⟨d, true, false⟩
        ⟨.itemHeader b :: rest, pos, true⟩).2.1.hard_break = true ∧
      (LazyDicomElementIterator.run n
          (LazyDicomElementIterator.next ⟨d, true, false⟩
            ⟨.itemHeader b :: rest, pos, true⟩).2.1
          (LazyDicomElementIterator.next ⟨d, true, false⟩
            ⟨.itemHeader b :: rest, pos, true⟩).2.2).1 = List.replicate n none) := by
  constructor
  · by_cases htag : h.tag = ⟨0x0008, 0x0005⟩
    · refine ⟨?_, ?_, ?_⟩ <;>
        simp [LazyDicomElementIterator.next, decode_header, htag,
          LazyDicomElementIterator.create_element_marker, get_position, lazy_run_break]
    · by_cases hvr : h.vr = VR.SQ <;>
        refine ⟨?_, ?_, ?_⟩ <;>
        simp [LazyDicomElementIterator.next, decode_header, htag, hvr,
          LazyDicomElementIterator.create_element_marker, get_position, lazy_run_break]
  · cases b <;>
      refine ⟨?_, ?_, ?_⟩ <;>
      simp [LazyDicomElementIterator.next, decode_item_header,
        LazyDicomElementIterator.create_item_marker, get_position, lazy_run_break]

/-- C9: on a decoded header whose tag is the specific-character-set
attribute (0008,0005) — whatever its VR and length — the eager automaton
resolves the element's value on that very step (`read_element`, which runs
the codec's `read_value`) and produces the result as the step's item, while
the lazy automaton only records the current position in a marker; in both
modes an item is produced and the flag and depth are left unchanged. -/
theorem c9_charset_step (d pos : Nat) (vr : VR) (len : Nat) (rest : List Chunk) :
    DicomElementIterator.next ⟨d, false, false⟩
        ⟨.header ⟨⟨0x0008, 0x0005⟩, vr, len⟩ :: rest, pos, false⟩ =
      (some (DicomElementIterator.read_element ⟨rest, pos + 1, false⟩
          ⟨⟨0x0008, 0x0005⟩, vr, len⟩).1,
        ⟨d, false, false⟩,
        (DicomElementIterator.read_element ⟨rest, pos + 1, false⟩
          ⟨⟨0x0008, 0x0005⟩, vr, len⟩).2) ∧
    LazyDicomElementIterator.next ⟨d, false, false⟩
        ⟨.header ⟨⟨0x0008, 0x0005⟩, vr, len⟩ :: rest, pos, false⟩ =
      (some (.ok ⟨⟨⟨0x0008, 0x0005⟩, vr, len⟩, pos + 1⟩),
        ⟨d, false, false⟩, ⟨rest, pos + 1, false⟩) :=
  ⟨rfl, rfl⟩

theorem zeroLen_head (h : DataElementHeader) (rest : List Chunk)
    (hz : zeroLenChunks (Chunk.header h :: rest) = true) :
    (if h.len = undefinedLen then 0 else h.len) = 0 := by
  simp only [zeroLenChunks, List.all_cons, Bool.and_eq_true, Bool.or_eq_true,
    beq_iff_eq] at hz
  rcases hz.1 with h3 | h3
  · rw [if_pos h3]
  · rw [h3]
    decide

theorem zeroLen_tail (c : Chunk) (rest : List Chunk)
    (hz : zeroLenChunks (c :: rest) = true) : zeroLenChunks rest = true := by
  simp only [zeroLenChunks, List.all_cons, Bool.and_eq_true] at hz
  exact hz.2

theorem step_shape_corr (st : IterState) (src : Source)
    (hp : src.posErr = false) (hz : zeroLenChunks src.chunks = true) :
    eagerShape (DicomElementIterator.next st src).1 =
      lazyShape (LazyDicomElementIterator.next st src).1 ∧
    (DicomElementIterator.next st src).2.1 =
      (LazyDicomElementIterator.next st src).2.1 ∧
    (DicomElementIterator.next st src).2.2 =
      (LazyDicomElementIterator.next st src).2.2 ∧
    (DicomElementIterator.next st src).2.2.posErr = false ∧
    zeroLenChunks (DicomElementIterator.next st src).2.2.chunks = true := by
  obtain ⟨cs, pos, pe⟩ := src
  simp only at hp hz
  subst hp
  obtain ⟨d, sq, hb⟩ := st
  cases hb with
  | true => exact ⟨rfl, rfl, rfl, rfl, hz⟩
  | false =>
    cases sq with
    | true =>
      cases cs with
      | nil => exact ⟨rfl, rfl, rfl, rfl, hz⟩
      | cons c rest =>
        have hzr := zeroLen_tail c rest hz
        cases c with
        | header hh => exact ⟨rfl, rfl, rfl, rfl, hz⟩
        | valueByte v => exact ⟨rfl, rfl, rfl, rfl, hz⟩
        | itemHeader b =>
          cases b with
          | item l => exact ⟨rfl, rfl, rfl, rfl, hzr⟩
          | itemDelimiter => exact ⟨rfl, rfl, rfl, rfl, hzr⟩
          | sequenceDelimiter => exact ⟨rfl, rfl, rfl, rfl, hzr⟩
    | false =>
      cases cs with
      | nil => exact ⟨rfl, rfl, rfl, rfl, hz⟩
      | cons c rest =>
        have hzr := zeroLen_tail c rest hz
        cases c with
        | itemHeader b => exact ⟨rfl, rfl, rfl, rfl, hz⟩
        | valueByte v => exact ⟨rfl, rfl, rfl, rfl, hz⟩
        | header hh =>
          have hlen := zeroLen_head hh rest hz
          have hre : DicomElementIterator.read_element ⟨rest, pos + 1, false⟩ hh =
              (.ok ⟨hh, .Bytes []⟩, ⟨rest, pos + 1, false⟩) := by
            simp [DicomElementIterator.read_element, read_value, hlen, takeValueBytes]
          by_cases htag : hh.tag = ⟨0x0008, 0x0005⟩
          · refine ⟨?_, ?_, ?_, ?_, ?_⟩ <;>
              simp [DicomElementIterator.next, LazyDicomElementIterator.next, decode_header,
                htag, hre, eagerShape, lazyShape,
                LazyDicomElementIterator.create_element_marker, get_position, hzr]
          · by_cases hvr : hh.vr = VR.SQ <;>
              refine ⟨?_, ?_, ?_, ?_, ?_⟩ <;>
              simp [DicomElementIterator.next, LazyDicomElementIterator.next, decode_header,
                htag, hvr, hre, eagerShape, lazyShape,
                LazyDicomElementIterator.create_element_marker, get_position, hzr]

/-- C7 (counterexample): over the §8 flat two-element stream, whose first
element carries a two-byte value, the eager and the lazy automaton do not
produce identical header sequences.  The eager walker consumes the value via
`read_value`; the lazy walker only records the position and never advances
past the value bytes, so its second `decode_header` call starts inside the
previous element's value and fails. -/
theorem c7_counterexample :
    (DicomElementIterator.run 2 initState flatScenarioSrc).1.map eagerShape ≠
      (LazyDicomElementIterator.run 2 initState flatScenarioSrc).1.map lazyShape := by
  decide

/-- C7 (amended): for input streams in which every element header declares a
zero-byte payload (zero or undefined length) — the case in which the lazy
walker's failure to advance past value bytes cannot show — and over a source
whose position query succeeds, the eager and the lazy automaton produce
identical outcome sequences element-for-element (same headers, same error
and end-of-stream positions), with identical final state and final source;
only the payload representation differs (materialized value vs. recorded
offset). -/
theorem c7_amended (n : Nat) (st : IterState) (src : Source)
    (hp : src.posErr = false) (hz : zeroLenChunks src.chunks = true) :
    (DicomElementIterator.run n st src).1.map eagerShape =
      (LazyDicomElementIterator.run n st src).1.map lazyShape ∧
    (DicomElementIterator.run n st src).2.1 =
      (LazyDicomElementIterator.run n st src).2.1 ∧
    (DicomElementIterator.run n st src).2.2 =
      (LazyDicomElementIterator.run n st src).2.2 := by
  induction n generalizing st src with
  | zero => exact ⟨rfl, rfl, rfl⟩
  | succ k ih =>
    obtain ⟨hsh, hst, hsrc, hpe, hzc⟩ := step_shape_corr st src hp hz
    have ihk := ih (DicomElementIterator.next st src).2.1
      (DicomElementIterator.next st src).2.2 hpe hzc
    refine ⟨?_, ?_, ?_⟩ <;>
      simp only [DicomElementIterator.run, LazyDicomElementIterator.run, List.map_cons] <;>
      rw [← hst, ← hsrc]
    · rw [hsh, ihk.1]
    · exact ihk.2.1
    · exact ihk.2.2

theorem c7_amended_witness :
    (⟨[Chunk.header ⟨⟨0x0008, 0x0005⟩, .CS, 0⟩,
       Chunk.header ⟨⟨0x0010, 0x0010⟩, .PN, 0⟩], 0, false⟩ : Source).posErr = false ∧
    zeroLenChunks (⟨[Chunk.header ⟨⟨0x0008, 0x0005⟩, .CS, 0⟩,
       Chunk.header ⟨⟨0x0010, 0x0010⟩, .PN, 0⟩], 0, false⟩ : Source).chunks = true ∧
    (DicomElementIterator.run 3 initState
        ⟨[Chunk.header ⟨⟨0x0008, 0x0005⟩, .CS, 0⟩,
          Chunk.header ⟨⟨0x0010, 0x0010⟩, .PN, 0⟩], 0, false⟩).1.map eagerShape =
      (LazyDicomElementIterator.run 3 initState
        ⟨[Chunk.header ⟨⟨0x0008, 0x0005⟩, .CS, 0⟩,
          Chunk.header ⟨⟨0x0010, 0x0010⟩, .PN, 0⟩], 0, false⟩).1.map lazyShape :=
  ⟨rfl, by decide,
    (c7_amended 3 initState ⟨[Chunk.header ⟨⟨0x0008, 0x0005⟩, .CS, 0⟩,
      Chunk.header ⟨⟨0x0010, 0x0010⟩, .PN, 0⟩], 0, false⟩ rfl (by decide)).1⟩

/-- C10: in every state reachable from the constructor state by automaton
steps — over arbitrary sources — the "awaiting item boundary" flag being set
implies the nesting depth is at least 1, in both the eager and the lazy
automaton; hence the unsigned `depth -= 1` performed in the
`SequenceDelimiter` arm (which is only reachable with the flag set) always
acts on a positive depth and never underflows. -/
theorem c10_depth_invariant :
    (∀ st, EagerReachable st → st.in_sequence = true → 1 ≤ st.depth) ∧
    (∀ st, LazyReachable st → st.in_sequence = true → 1 ≤ st.depth) := by
  constructor
  · intro st hr
    induction hr with
    | init => intro hh; exact absurd hh (by decide)
    | step st' src hr' ih =>
      obtain ⟨d, sq, hb⟩ := st'
      obtain ⟨cs, pos, pe⟩ := src
      cases hb with
      | true => simpa [DicomElementIterator.next] using ih
      | false =>
        cases sq with
        | false =>
          cases cs with
          | nil => intro hh; simp [DicomElementIterator.next, decode_header] at hh
          | cons c rest =>
            cases c with
            | header hh2 =>
              by_cases htag : hh2.tag = ⟨0x0008, 0x0005⟩
              · intro hh; simp [DicomElementIterator.next, decode_header, htag] at hh
              · by_cases hvr : hh2.vr = VR.SQ
                · intro hh
                  simp [DicomElementIterator.next, decode_header, htag, hvr]
                · intro hh
                  simp [DicomElementIterator.next, decode_header, htag, hvr] at hh
            | itemHeader b =>
              intro hh; simp [DicomElementIterator.next, decode_header] at hh
            | valueByte v =>
              intro hh; simp [DicomElementIterator.next, decode_header] at hh
        | true =>
          have hd : 1 ≤ d := ih rfl
          cases cs with
          | nil =>
            intro hh; simpa [DicomElementIterator.next, decode_item_header] using hd
          | cons c rest =>
            cases c with
            | header hh2 =>
              intro hh; simpa [DicomElementIterator.next, decode_item_header] using hd
            | itemHeader b =>
              cases b with
              | item l =>
                intro hh; simp [DicomElementIterator.next, decode_item_header] at hh
              | itemDelimiter =>
                intro hh; simpa [DicomElementIterator.next, decode_item_header] using hd
              | sequenceDelimiter =>
                intro hh; simp [DicomElementIterator.next, decode_item_header] at hh
            | valueByte v =>
              intro hh; simpa [DicomElementIterator.next, decode_item_header] using hd
  · intro st hr
    induction hr with
    | init => intro hh; exact absurd hh (by decide)
    | step st' src hr' ih =>
      obtain ⟨d, sq, hb⟩ := st'
      obtain ⟨cs, pos, pe⟩ := src
      cases hb with
      | true => simpa [LazyDicomElementIterator.next] using ih
      | false =>
        cases sq with
        | false =>
          cases cs with
          | nil => intro hh; simp [LazyDicomElementIterator.next, decode_header] at hh
          | cons c rest =>
            cases c with
            | header hh2 =>
              by_cases htag : hh2.tag = ⟨0x0008, 0x0005⟩
              · intro hh
                cases pe <;>
                  simp [LazyDicomElementIterator.next, decode_header, htag,
                    LazyDicomElementIterator.create_element_marker, get_position] at hh
              · by_cases hvr : hh2.vr = VR.SQ
                · intro hh
                  cases pe <;>
                    simp [LazyDicomElementIterator.next, decode_header, htag, hvr,
                      LazyDicomElementIterator.create_element_marker, get_position]
                · intro hh
                  cases pe <;>
                    simp [LazyDicomElementIterator.next, decode_header, htag, hvr,
                      LazyDicomElementIterator.create_element_marker, get_position] at hh
            | itemHeader b =>
              intro hh; simp [LazyDicomElementIterator.next, decode_header] at hh
            | valueByte v =>
              intro hh; simp [LazyDicomElementIterator.next, decode_header] at hh
        | true =>
          have hd : 1 ≤ d := ih rfl
          cases cs with
          | nil =>
            intro hh; simpa [LazyDicomElementIterator.next, decode_item_header] using hd
          | cons c rest =>
            cases c with
            | header hh2 =>
              intro hh; simpa [LazyDicomElementIterator.next, decode_item_header] using hd
            | itemHeader b =>
              cases b with
              | item l =>
                intro hh
                cases pe <;>
                  simp [LazyDicomElementIterator.next, decode_item_header,
                    LazyDicomElementIterator.create_item_marker, get_position] at hh
              | itemDelimiter =>
                intro hh
                cases pe <;>
                  · simp [LazyDicomElementIterator.next, decode_item_header,
                      LazyDicomElementIterator.create_item_marker, get_position]
                    exact hd
              | sequenceDelimiter =>
                intro hh
                cases pe <;>
                  simp [LazyDicomElementIterator.next, decode_item_header,
                    LazyDicomElementIterator.create_item_marker, get_position] at hh
            | valueByte v =>
              intro hh; simpa [LazyDicomElementIterator.next, decode_item_header] using hd

theorem c10_depth_invariant_witness :
    EagerReachable ⟨1, true, false⟩ ∧ LazyReachable ⟨1, true, false⟩ ∧
    (⟨1, true, false⟩ : IterState).in_sequence = true ∧
    1 ≤ (⟨1, true, false⟩ : IterState).depth := by
  have hE : EagerReachable ⟨1, true, false⟩ :=
    EagerReachable.step initState
      ⟨[.header ⟨⟨0x0040, 0x0100⟩, .SQ, undefinedLen⟩], 0, false⟩ EagerReachable.init
  have hL : LazyReachable ⟨1, true, false⟩ :=
    LazyReachable.step initState
      ⟨[.header ⟨⟨0x0040, 0x0100⟩, .SQ, undefinedLen⟩], 0, false⟩ LazyReachable.init
  exact ⟨hE, hL, rfl, c10_depth_invariant.1 ⟨1, true, false⟩ hE rfl⟩

end DicomCore
